import Mathlib

/-!
Shallow embedding of the Q/A flashcard trainer (src/src/main.cpp).

The program is a single-threaded, event-driven flashcard reviewer.  Its
session logic is embedded here as pure functions on an explicit `AppState`:
the in-memory deck, the current card index, the answer-visibility flag, the
rating log (modelled as the list of lines durably written, since the code
flushes after every write), the two text panes, and the list of message
boxes shown to the user.  Wide strings (`std::wstring`) and narrow strings
are both modelled as Lean `String`; wall-clock timestamps are modelled as an
arbitrary string parameter supplied at each rating event.
-/

/-- Structure `Card` from main.cpp: id, question, answer. -/
structure Card where
  id : String
  question : String
  answer : String
deriving DecidableEq, Repr

/-- Enumeration `Rating` from main.cpp (`enum class Rating` with Bad, Meh, Good). -/
inductive Rating where
  | Bad
  | Meh
  | Good
deriving DecidableEq, Repr

def defaultCard : Card := ⟨"", "", ""⟩

/-- The session state `AppState` from main.cpp, restricted to the fields the
session logic reads or writes.  `logOpen` models `answerLog.is_open()`;
`logLines` models the flushed contents appended to answers.log;
`topText` / `bottomText` model the two edit controls; `messages` records the
`MessageBoxW` calls in order. -/
structure AppState where
  cards : List Card
  currentCardIndex : Nat
  answerVisible : Bool
  logOpen : Bool
  logLines : List String
  topText : String
  bottomText : String
  messages : List String
deriving DecidableEq, Repr

/-- Function `RatingToText` from main.cpp. -/
def RatingToText : Rating → String
  | .Good => "good"
  | .Meh => "meh"
  | .Bad => "bad"

/-- Characters stripped by `TrimWide`/`Trim` (`" \t\r\n"`). -/
def isTrimChar (c : Char) : Bool :=
  c = ' ' || c = '\t' || c = '\r' || c = '\n'

/-- Function `TrimWide` from main.cpp: drop leading and trailing whitespace; the
all-whitespace case (`find_first_not_of == npos`) yields the empty string. -/
def TrimWide (s : String) : String :=
  String.mk (((s.data.dropWhile isTrimChar).reverse.dropWhile isTrimChar).reverse)

/-- Function `Trim` from main.cpp (same algorithm as `TrimWide`, on narrow strings). -/
def Trim (s : String) : String :=
  String.mk (((s.data.dropWhile isTrimChar).reverse.dropWhile isTrimChar).reverse)

/-- Predicate `IsCardComplete` from main.cpp. -/
def IsCardComplete (card : Card) : Bool :=
  card.id != "" && card.question != "" && card.answer != ""

/-- The text of the `MessageBoxW` shown by `AdvanceToNextCard` when the deck
wraps: this is the "deck completed" signal. -/
def completionMessage : String :=
  "Reached the end of the deck. Restarting from the beginning."

/-- The validation `MessageBoxW` text from `HandleSaveNewCard`. -/
def validationMessage : String :=
  "Please enter both a question and an answer before saving."

/-- The confirmation `MessageBoxW` text from `HandleSaveNewCard`. -/
def savedMessage (id : String) : String :=
  "New card saved with ID: " ++ id

/-- The card the session is showing: `cards[currentCardIndex % cards.size()]`.
In C++ the lookup with an empty deck is undefined behaviour; the embedding
returns `defaultCard` there, and the safety theorems show the guarded code
never evaluates the lookup on an empty deck. -/
def currentCard (st : AppState) : Card :=
  st.cards.getD (st.currentCardIndex % st.cards.length) defaultCard

/-- Function `AppendRatingToLog` from main.cpp: dropped when the log is not open or the
card id is empty; otherwise appends one `<timestamp>|<cardId>|<ratingToken>`
line and flushes. -/
def AppendRatingToLog (st : AppState) (card : Card) (rating : Rating)
    (ts : String) : AppState :=
  if st.logOpen = false ∨ card.id = "" then st
  else { st with
    logLines := st.logLines ++ [ts ++ "|" ++ card.id ++ "|" ++ RatingToText rating] }

/-- Function `LoadCurrentCard` from main.cpp: on an empty deck only the top pane is
rewritten; otherwise show the current question, clear the answer pane and
reset visibility to Hidden. -/
def LoadCurrentCard (st : AppState) : AppState :=
  if st.cards = [] then { st with topText := "No cards available." }
  else
    let card := st.cards.getD (st.currentCardIndex % st.cards.length) defaultCard
    { st with topText := card.question, bottomText := "", answerVisible := false }

/-- Function `ShowAnswer` from main.cpp: no-op if the deck is empty or the answer is
already visible; otherwise reveal the current card's answer. -/
def ShowAnswer (st : AppState) : AppState :=
  if st.cards = [] ∨ st.answerVisible = true then st
  else
    let card := st.cards.getD (st.currentCardIndex % st.cards.length) defaultCard
    { st with bottomText := card.answer, answerVisible := true }

/-- Function `AdvanceToNextCard` from main.cpp: wrap the index, show the completion
message box exactly when the new index is 0, then reload the current card. -/
def AdvanceToNextCard (st : AppState) : AppState :=
  if st.cards = [] then st
  else
    let st1 := { st with currentCardIndex := (st.currentCardIndex + 1) % st.cards.length }
    let st2 :=
      if st1.currentCardIndex = 0 then
        { st1 with messages := st1.messages ++ [completionMessage] }
      else st1
    LoadCurrentCard st2

/-- Function `HandleRating` from main.cpp: silently ignored while the answer is hidden;
otherwise log the rating for the current card and advance. -/
def HandleRating (st : AppState) (rating : Rating) (ts : String) : AppState :=
  if st.answerVisible = false then st
  else AdvanceToNextCard (AppendRatingToLog st (currentCard st) rating ts)

/-- Predicate `IdExists` from main.cpp. -/
def IdExists (cards : List Card) (id : String) : Bool :=
  cards.any (fun card => card.id = id)

/-- The decimal rendering `std::to_wstring(counter)` used by
`GenerateUniqueId`, written over `Nat.digits` so its injectivity follows from
`Nat.ofDigits_digits`. -/
def natToDec (n : Nat) : String :=
  if n = 0 then "0"
  else String.mk (((Nat.digits 10 n).map Nat.digitChar).reverse)

/-- The candidate id `L"card-" + std::to_wstring(counter)`. -/
def candidateId (n : Nat) : String := "card-" ++ natToDec n

/-- The search loop of `GenerateUniqueId`, with explicit fuel.  The C++ loop
is unbounded; the fuel `cards.length + 1` chosen in `GenerateUniqueId` is
proved sufficient (pigeonhole), so the out-of-fuel branch is unreachable. -/
def genIdFrom : Nat → Nat → List Card → String
  | 0, counter, _ => candidateId counter
  | fuel + 1, counter, cards =>
    if IdExists cards (candidateId counter) then genIdFrom fuel (counter + 1) cards
    else candidateId counter

/-- Function `GenerateUniqueId` from main.cpp: first unused `card-N` for N = 1, 2, ... -/
def GenerateUniqueId (cards : List Card) : String :=
  genIdFrom (cards.length + 1) 1 cards

/-- Function `HandleSaveNewCard` from main.cpp: trim both fields; on an empty field
show only the validation message and abort; otherwise append the card with a
generated id, make it current, reload, and confirm. -/
def HandleSaveNewCard (st : AppState) (q a : String) : AppState :=
  let question := TrimWide q
  let answer := TrimWide a
  if question = "" ∨ answer = "" then
    { st with messages := st.messages ++ [validationMessage] }
  else
    let id := GenerateUniqueId st.cards
    let newCards := st.cards ++ [⟨id, question, answer⟩]
    let st1 := { st with cards := newCards, currentCardIndex := newCards.length - 1 }
    let st2 := LoadCurrentCard st1
    { st2 with messages := st2.messages ++ [savedMessage id] }

/-- Function `ExtractValue` from main.cpp: the value after `key ++ ":"`, trimmed. -/
def ExtractValue (line key : String) : String :=
  let pfx := key ++ ":"
  if line.startsWith pfx then Trim (line.drop pfx.length) else ""

/-- Parser state of `LoadCardsFromYaml`: accumulated cards, the card being
assembled, and whether a `- ` entry has been opened. -/
structure ParseState where
  cards : List Card
  cur : Card
  inCard : Bool
deriving Repr

/-- The branching body of one iteration of the `while (std::getline(...))`
loop of `LoadCardsFromYaml`, applied to the already-trimmed line. -/
def processTrimmed (ps : ParseState) (trimmed : String) : ParseState :=
  if trimmed = "" || trimmed.startsWith "#" then ps
  else if trimmed = "cards:" then ps
  else if trimmed.startsWith "- " then
    let cards :=
      if ps.inCard && IsCardComplete ps.cur then ps.cards ++ [ps.cur] else ps.cards
    let entry := Trim (trimmed.drop 2)
    let cur : Card :=
      if entry.startsWith "id:" then { defaultCard with id := ExtractValue entry "id" }
      else if entry.startsWith "question:" then
        { defaultCard with question := ExtractValue entry "question" }
      else if entry.startsWith "answer:" then
        { defaultCard with answer := ExtractValue entry "answer" }
      else defaultCard
    { cards := cards, cur := cur, inCard := true }
  else if ps.inCard = false then ps
  else if trimmed.startsWith "id:" then
    { ps with cur := { ps.cur with id := ExtractValue trimmed "id" } }
  else if trimmed.startsWith "question:" then
    { ps with cur := { ps.cur with question := ExtractValue trimmed "question" } }
  else if trimmed.startsWith "answer:" then
    { ps with cur := { ps.cur with answer := ExtractValue trimmed "answer" } }
  else ps

/-- One iteration of the `while (std::getline(...))` loop of
`LoadCardsFromYaml`: trim the line, then branch on its shape. -/
def processLine (ps : ParseState) (line : String) : ParseState :=
  processTrimmed ps (Trim line)

/-- Function `LoadCardsFromYaml` from main.cpp.  The file is modelled as
`Option (List String)`: `none` when `ifstream` fails to open (missing or
unavailable file), otherwise the list of lines. -/
def LoadCardsFromYaml (source : Option (List String)) : List Card :=
  match source with
  | none => []
  | some lines =>
    let ps := lines.foldl processLine ⟨[], defaultCard, false⟩
    if ps.inCard && IsCardComplete ps.cur then ps.cards ++ [ps.cur] else ps.cards

/-- Function `LoadDefaultCards` from main.cpp: the hardcoded built-in deck. -/
def LoadDefaultCards : List Card :=
  [⟨"capital-france", "What is the capital of France?", "Paris"⟩,
   ⟨"math-basic-2-plus-2", "What is 2 + 2?", "4"⟩,
   ⟨"largest-planet", "Name the largest planet in our solar system.", "Jupiter"⟩]

/-- Function `LoadCards` from main.cpp: the parsed deck when non-empty, else the
built-in deck. -/
def LoadCards (source : Option (List String)) : List Card :=
  let loadedCards := LoadCardsFromYaml source
  if loadedCards = [] then LoadDefaultCards else loadedCards

/-- The session events the UI can dispatch: Show Answer, a rating (with the
wall-clock timestamp string in effect at that moment), an advance, and the
New Card save. -/
inductive Event where
  | reveal
  | rate (r : Rating) (ts : String)
  | advance
  | saveNewCard (q a : String)

def applyEvent (st : AppState) : Event → AppState
  | .reveal => ShowAnswer st
  | .rate r ts => HandleRating st r ts
  | .advance => AdvanceToNextCard st
  | .saveNewCard q a => HandleSaveNewCard st q a

def runEvents (st : AppState) (es : List Event) : AppState :=
  es.foldl applyEvent st

/-- The session state built by `WM_CREATE`: the loaded deck, index 0, hidden,
then `LoadCurrentCard`.  `logOpen` records whether answers.log opened. -/
def initState (cards : List Card) (logOpen : Bool) : AppState :=
  LoadCurrentCard
    { cards := cards, currentCardIndex := 0, answerVisible := false,
      logOpen := logOpen, logLines := [], topText := "", bottomText := "",
      messages := [] }

/-- A full pass of `deckSize` review rounds: each card is revealed and then rated (the
rating and the wall-clock timestamp of round `i` are `r i` and `ts i`). -/
def reviewRounds (n : Nat) (r : Nat → Rating) (ts : Nat → String) : List Event :=
  (List.range n).flatMap (fun i => [Event.reveal, Event.rate (r i) (ts i)])

/-- How many times the "deck completed" message box has been shown. -/
def completedCount (st : AppState) : Nat :=
  st.messages.count completionMessage

/-! ### Decimal rendering and generated-id lemmas -/

theorem digitChar_inj_lt :
    ∀ a, a < 10 → ∀ b, b < 10 → Nat.digitChar a = Nat.digitChar b → a = b := by
  decide

theorem map_digitChar_inj : ∀ (l1 l2 : List Nat), (∀ d ∈ l1, d < 10) → (∀ d ∈ l2, d < 10) →
    l1.map Nat.digitChar = l2.map Nat.digitChar → l1 = l2 := by
  intro l1
  induction l1 with
  | nil =>
    intro l2 _ _ h
    cases l2 with
    | nil => rfl
    | cons b t => simp at h
  | cons a t ih =>
    intro l2 h1 h2 h
    cases l2 with
    | nil => simp at h
    | cons b t2 =>
      simp only [List.map_cons, List.cons.injEq] at h
      have ha : a < 10 := h1 a (List.mem_cons_self a t)
      have hb : b < 10 := h2 b (List.mem_cons_self b t2)
      have hab := digitChar_inj_lt a ha b hb h.1
      have ht := ih t2 (fun d hd => h1 d (List.mem_cons_of_mem a hd))
        (fun d hd => h2 d (List.mem_cons_of_mem b hd)) h.2
      rw [hab, ht]

theorem digits_eq_of_map_eq (m n : Nat)
    (h : (Nat.digits 10 m).map Nat.digitChar = (Nat.digits 10 n).map Nat.digitChar) :
    m = n := by
  have hd := map_digitChar_inj (Nat.digits 10 m) (Nat.digits 10 n)
    (fun d hd => Nat.digits_lt_base (by norm_num) hd)
    (fun d hd => Nat.digits_lt_base (by norm_num) hd) h
  have := congrArg (Nat.ofDigits 10) hd
  rwa [Nat.ofDigits_digits, Nat.ofDigits_digits] at this

theorem natToDec_inj : Function.Injective natToDec := by
  intro m n h
  unfold natToDec at h
  by_cases hm : m = 0 <;> by_cases hn : n = 0
  · rw [hm, hn]
  · exfalso
    rw [if_pos hm, if_neg hn] at h
    have hdata : ['0'] = ((Nat.digits 10 n).map Nat.digitChar).reverse :=
      congrArg String.data h
    have hmap : (Nat.digits 10 n).map Nat.digitChar = [0].map Nat.digitChar := by
      have := congrArg List.reverse hdata
      simpa using this.symm
    have hdig : Nat.digits 10 n = [0] := map_digitChar_inj _ _
      (fun d hd => Nat.digits_lt_base (by norm_num) hd) (by simp) hmap
    have hz := congrArg (Nat.ofDigits 10) hdig
    rw [Nat.ofDigits_digits] at hz
    simp [Nat.ofDigits] at hz
    exact hn hz
  · exfalso
    rw [if_neg hm, if_pos hn] at h
    have hdata : ((Nat.digits 10 m).map Nat.digitChar).reverse = ['0'] :=
      congrArg String.data h
    have hmap : (Nat.digits 10 m).map Nat.digitChar = [0].map Nat.digitChar := by
      have := congrArg List.reverse hdata
      simpa using this
    have hdig : Nat.digits 10 m = [0] := map_digitChar_inj _ _
      (fun d hd => Nat.digits_lt_base (by norm_num) hd) (by simp) hmap
    have hz := congrArg (Nat.ofDigits 10) hdig
    rw [Nat.ofDigits_digits] at hz
    simp [Nat.ofDigits] at hz
    exact hm hz
  · rw [if_neg hm, if_neg hn] at h
    have hdata := congrArg String.data h
    simp only [String.mk] at hdata
    have := congrArg List.reverse hdata
    simp only [List.reverse_reverse] at this
    exact digits_eq_of_map_eq m n this

theorem candidateId_inj : Function.Injective candidateId := by
  intro m n h
  apply natToDec_inj
  apply String.ext
  have hdata := congrArg String.data h
  unfold candidateId at hdata
  rw [String.data_append, String.data_append] at hdata
  exact List.append_cancel_left hdata

theorem IdExists_iff (cards : List Card) (i : String) :
    IdExists cards i = true ↔ i ∈ cards.map Card.id := by
  simp [IdExists, List.any_eq_true, List.mem_map]

theorem exists_unused_candidate (cards : List Card) :
    ∃ k, 1 ≤ k ∧ k ≤ cards.length + 1 ∧ IdExists cards (candidateId k) = false := by
  by_contra hall
  push_neg at hall
  have hused : ∀ k, 1 ≤ k → k ≤ cards.length + 1 → candidateId k ∈ cards.map Card.id := by
    intro k h1 h2
    have := hall k h1 h2
    rw [← IdExists_iff]
    cases he : IdExists cards (candidateId k)
    · exact absurd he this
    · rfl
  have hinj : Set.InjOn (fun k => candidateId k) (Finset.Icc 1 (cards.length + 1)) :=
    fun a _ b _ hab => candidateId_inj hab
  have hmaps : ∀ k ∈ Finset.Icc 1 (cards.length + 1),
      candidateId k ∈ (cards.map Card.id).toFinset := by
    intro k hk
    rw [List.mem_toFinset]
    rw [Finset.mem_Icc] at hk
    exact hused k hk.1 hk.2
  have hcard := Finset.card_le_card_of_injOn (fun k => candidateId k) hmaps hinj
  rw [Nat.card_Icc] at hcard
  have hle : (cards.map Card.id).toFinset.card ≤ cards.length := by
    calc (cards.map Card.id).toFinset.card ≤ (cards.map Card.id).length :=
          (cards.map Card.id).toFinset_card_le
      _ = cards.length := List.length_map _ _
  omega

theorem genIdFrom_spec (cards : List Card) :
    ∀ (fuel c : Nat),
    (∃ k, c ≤ k ∧ k < c + fuel ∧ IdExists cards (candidateId k) = false) →
    ∃ N, genIdFrom fuel c cards = candidateId N ∧ c ≤ N ∧
      IdExists cards (candidateId N) = false ∧
      ∀ m, c ≤ m → m < N → IdExists cards (candidateId m) = true := by
  intro fuel
  induction fuel with
  | zero =>
    intro c ⟨k, h1, h2, _⟩
    omega
  | succ f ih =>
    intro c ⟨k, h1, h2, h3⟩
    by_cases hc : IdExists cards (candidateId c) = true
    · have hrec : ∃ k, c + 1 ≤ k ∧ k < c + 1 + f ∧
          IdExists cards (candidateId k) = false := by
        refine ⟨k, ?_, by omega, h3⟩
        rcases Nat.eq_or_lt_of_le h1 with he | hl
        · exfalso
          rw [← he] at h3
          rw [h3] at hc
          exact Bool.false_ne_true hc
        · omega
      obtain ⟨N, hN1, hN2, hN3, hN4⟩ := ih (c + 1) hrec
      refine ⟨N, ?_, by omega, hN3, ?_⟩
      · simp [genIdFrom, hc]
        exact hN1
      · intro m hm1 hm2
        rcases Nat.eq_or_lt_of_le hm1 with he | hl
        · rw [← he]
          exact hc
        · exact hN4 m hl hm2
    · have hc' : IdExists cards (candidateId c) = false := by
        cases he : IdExists cards (candidateId c)
        · rfl
        · exact absurd he hc
      refine ⟨c, ?_, Nat.le_refl c, hc',
        fun m hm1 hm2 => absurd (Nat.lt_of_le_of_lt hm1 hm2) (Nat.lt_irrefl c)⟩
      simp [genIdFrom, hc']

/-! ### Characterization lemmas for the session operations -/

theorem showAnswer_noop (st : AppState) (h : st.cards = [] ∨ st.answerVisible = true) :
    ShowAnswer st = st := by
  unfold ShowAnswer
  rw [if_pos h]

theorem showAnswer_reveal (st : AppState) (h1 : st.cards ≠ []) (h2 : st.answerVisible = false) :
    ShowAnswer st = { st with bottomText := (currentCard st).answer, answerVisible := true } := by
  unfold ShowAnswer currentCard
  rw [if_neg (by simp [h1, h2])]

theorem showAnswer_cards (st : AppState) : (ShowAnswer st).cards = st.cards := by
  unfold ShowAnswer
  split <;> rfl

theorem appendLog_skip (st : AppState) (card : Card) (r : Rating) (ts : String)
    (h : st.logOpen = false ∨ card.id = "") :
    AppendRatingToLog st card r ts = st := by
  unfold AppendRatingToLog
  rw [if_pos h]

theorem appendLog_write (st : AppState) (card : Card) (r : Rating) (ts : String)
    (h1 : st.logOpen = true) (h2 : card.id ≠ "") :
    AppendRatingToLog st card r ts =
      { st with logLines := st.logLines ++ [ts ++ "|" ++ card.id ++ "|" ++ RatingToText r] } := by
  unfold AppendRatingToLog
  rw [if_neg (by simp [h1, h2])]

theorem loadCurrentCard_empty (st : AppState) (h : st.cards = []) :
    LoadCurrentCard st = { st with topText := "No cards available." } := by
  unfold LoadCurrentCard
  rw [if_pos h]

theorem loadCurrentCard_spec (st : AppState) (h : st.cards ≠ []) :
    LoadCurrentCard st =
      { st with topText := (currentCard st).question, bottomText := "",
                answerVisible := false } := by
  unfold LoadCurrentCard currentCard
  rw [if_neg h]

theorem loadCurrentCard_cards (st : AppState) : (LoadCurrentCard st).cards = st.cards := by
  unfold LoadCurrentCard
  split <;> rfl

theorem advance_empty (st : AppState) (h : st.cards = []) : AdvanceToNextCard st = st := by
  unfold AdvanceToNextCard
  rw [if_pos h]

theorem advance_spec (st : AppState) (h : st.cards ≠ []) :
    AdvanceToNextCard st =
      { st with
        currentCardIndex := (st.currentCardIndex + 1) % st.cards.length,
        answerVisible := false,
        topText := (st.cards.getD ((st.currentCardIndex + 1) % st.cards.length)
          defaultCard).question,
        bottomText := "",
        messages := st.messages ++
          (if (st.currentCardIndex + 1) % st.cards.length = 0 then [completionMessage]
           else []) } := by
  have hn : 0 < st.cards.length := List.length_pos.mpr h
  unfold AdvanceToNextCard
  rw [if_neg h]
  by_cases hz : (st.currentCardIndex + 1) % st.cards.length = 0
  · simp only [hz, if_pos rfl]
    rw [loadCurrentCard_spec _ (by simpa using h)]
    simp [currentCard, hz]
  · simp only [hz, if_neg hz]
    rw [loadCurrentCard_spec _ (by simpa using h)]
    simp [currentCard, Nat.mod_mod_of_dvd _ (dvd_refl st.cards.length)]

theorem advance_cards (st : AppState) : (AdvanceToNextCard st).cards = st.cards := by
  unfold AdvanceToNextCard
  split
  · rfl
  · rw [loadCurrentCard_cards]
    split <;> rfl

theorem rate_hidden (st : AppState) (r : Rating) (ts : String)
    (h : st.answerVisible = false) : HandleRating st r ts = st := by
  unfold HandleRating
  rw [if_pos h]

theorem rate_spec (st : AppState) (r : Rating) (ts : String)
    (hv : st.answerVisible = true) (hc : st.cards ≠ []) :
    HandleRating st r ts =
      { st with
        currentCardIndex := (st.currentCardIndex + 1) % st.cards.length,
        answerVisible := false,
        logLines := st.logLines ++
          (if st.logOpen = false ∨ (currentCard st).id = "" then []
           else [ts ++ "|" ++ (currentCard st).id ++ "|" ++ RatingToText r]),
        topText := (st.cards.getD ((st.currentCardIndex + 1) % st.cards.length)
          defaultCard).question,
        bottomText := "",
        messages := st.messages ++
          (if (st.currentCardIndex + 1) % st.cards.length = 0 then [completionMessage]
           else []) } := by
  unfold HandleRating
  rw [if_neg (by simp [hv])]
  by_cases hl : st.logOpen = false ∨ (currentCard st).id = ""
  · rw [appendLog_skip st _ r ts hl, advance_spec st hc]
    simp [hl]
  · push_neg at hl
    rw [appendLog_write st _ r ts (by simpa using hl.1) hl.2]
    rw [advance_spec _ (by simpa using hc)]
    have hcond : ¬(st.logOpen = false ∨ (currentCard st).id = "") := by
      push_neg
      exact hl
    rw [if_neg hcond]

theorem rate_cards (st : AppState) (r : Rating) (ts : String) :
    (HandleRating st r ts).cards = st.cards := by
  unfold HandleRating
  split
  · rfl
  · rw [advance_cards]
    unfold AppendRatingToLog
    split <;> rfl

theorem save_invalid (st : AppState) (q a : String)
    (h : TrimWide q = "" ∨ TrimWide a = "") :
    HandleSaveNewCard st q a = { st with messages := st.messages ++ [validationMessage] } := by
  simp only [HandleSaveNewCard]
  rw [if_pos h]

theorem save_valid (st : AppState) (q a : String)
    (hq : TrimWide q ≠ "") (ha : TrimWide a ≠ "") :
    HandleSaveNewCard st q a =
      { st with
        cards := st.cards ++ [⟨GenerateUniqueId st.cards, TrimWide q, TrimWide a⟩],
        currentCardIndex := st.cards.length,
        answerVisible := false,
        topText := TrimWide q,
        bottomText := "",
        messages := st.messages ++ [savedMessage (GenerateUniqueId st.cards)] } := by
  simp only [HandleSaveNewCard]
  rw [if_neg (by simp [hq, ha])]
  rw [loadCurrentCard_spec _ (by simp)]
  have hlen : (st.cards ++ [(⟨GenerateUniqueId st.cards, TrimWide q, TrimWide a⟩ : Card)]).length
      = st.cards.length + 1 := by simp
  simp only [currentCard, hlen, Nat.add_sub_cancel]
  rw [Nat.mod_eq_of_lt (by omega)]
  rw [List.getD_eq_getElem?_getD, List.getElem?_concat_length]
  rfl

theorem runEvents_nil (st : AppState) : runEvents st [] = st := rfl

theorem runEvents_cons (st : AppState) (e : Event) (es : List Event) :
    runEvents st (e :: es) = runEvents (applyEvent st e) es := rfl

theorem runEvents_append (st : AppState) (es1 es2 : List Event) :
    runEvents st (es1 ++ es2) = runEvents (runEvents st es1) es2 :=
  List.foldl_append _ _ _ _

/-! ### Review-round lemmas (deck cycling) -/

theorem review_round_effect (st : AppState) (h : st.cards ≠ [])
    (hv : st.answerVisible = false) (r : Rating) (ts : String) :
    runEvents st [Event.reveal, Event.rate r ts] =
      { st with
        currentCardIndex := (st.currentCardIndex + 1) % st.cards.length,
        answerVisible := false,
        logLines := st.logLines ++
          (if st.logOpen = false ∨ (currentCard st).id = "" then []
           else [ts ++ "|" ++ (currentCard st).id ++ "|" ++ RatingToText r]),
        topText := (st.cards.getD ((st.currentCardIndex + 1) % st.cards.length)
          defaultCard).question,
        bottomText := "",
        messages := st.messages ++
          (if (st.currentCardIndex + 1) % st.cards.length = 0 then [completionMessage]
           else []) } := by
  rw [runEvents_cons]
  show runEvents (ShowAnswer st) [Event.rate r ts] = _
  rw [showAnswer_reveal st h hv]
  rw [runEvents_cons, runEvents_nil]
  show HandleRating _ r ts = _
  rw [rate_spec _ r ts rfl (by simpa using h)]
  simp [currentCard]

theorem review_rounds_effect (st : AppState) (h : st.cards ≠ [])
    (hv : st.answerVisible = false) (h0 : st.currentCardIndex = 0)
    (r : Nat → Rating) (ts : Nat → String) :
    ∀ k, (runEvents st (reviewRounds k r ts)).cards = st.cards ∧
      (runEvents st (reviewRounds k r ts)).answerVisible = false ∧
      (runEvents st (reviewRounds k r ts)).currentCardIndex = k % st.cards.length ∧
      completedCount (runEvents st (reviewRounds k r ts)) =
        completedCount st + k / st.cards.length := by
  have hn : 0 < st.cards.length := List.length_pos.mpr h
  intro k
  induction k with
  | zero =>
    refine ⟨rfl, hv, ?_, ?_⟩
    · simp [reviewRounds, runEvents_nil, h0]
    · simp [reviewRounds, runEvents_nil, Nat.zero_div]
  | succ k ih =>
    obtain ⟨ihc, ihv, ihi, ihm⟩ := ih
    have hsplit : reviewRounds (k + 1) r ts =
        reviewRounds k r ts ++ [Event.reveal, Event.rate (r k) (ts k)] := by
      unfold reviewRounds
      rw [List.range_succ, List.flatMap_append]
      simp
    rw [hsplit, runEvents_append]
    set stk := runEvents st (reviewRounds k r ts) with hstk
    have hkc : stk.cards ≠ [] := by rw [ihc]; exact h
    rw [review_round_effect stk hkc ihv (r k) (ts k)]
    refine ⟨by simpa using ihc, by simp, ?_, ?_⟩
    · simp only [ihc, ihi]
      rw [Nat.mod_add_mod]
    · show (stk.messages ++ _).count completionMessage = _
      rw [List.count_append]
      have hcnt : (if (stk.currentCardIndex + 1) % stk.cards.length = 0
          then [completionMessage] else []).count completionMessage =
          if st.cards.length ∣ k + 1 then 1 else 0 := by
        rw [ihc, ihi, Nat.mod_add_mod]
        by_cases hd : st.cards.length ∣ k + 1
        · rw [if_pos (Nat.dvd_iff_mod_eq_zero.mp hd), if_pos hd]
          simp
        · rw [if_neg (fun hmod => hd (Nat.dvd_iff_mod_eq_zero.mpr hmod)), if_neg hd]
          rfl
      show completedCount stk + _ = _
      rw [hcnt, ihm, Nat.succ_div]
      omega

/-! ### Reachability invariants -/

theorem applyEvent_index_lt (st : AppState) (e : Event)
    (h : st.currentCardIndex < st.cards.length) :
    (applyEvent st e).currentCardIndex < (applyEvent st e).cards.length := by
  have hne : st.cards ≠ [] := by
    intro hc
    rw [hc] at h
    simp at h
  cases e with
  | reveal =>
    show (ShowAnswer st).currentCardIndex < (ShowAnswer st).cards.length
    unfold ShowAnswer
    split <;> simpa using h
  | rate r ts =>
    show (HandleRating st r ts).currentCardIndex < (HandleRating st r ts).cards.length
    by_cases hv : st.answerVisible = false
    · rw [rate_hidden st r ts hv]
      exact h
    · rw [rate_spec st r ts (by simpa using hv) hne]
      exact Nat.mod_lt _ (List.length_pos.mpr hne)
  | advance =>
    show (AdvanceToNextCard st).currentCardIndex < (AdvanceToNextCard st).cards.length
    rw [advance_spec st hne]
    exact Nat.mod_lt _ (List.length_pos.mpr hne)
  | saveNewCard q a =>
    show (HandleSaveNewCard st q a).currentCardIndex < (HandleSaveNewCard st q a).cards.length
    by_cases hval : TrimWide q = "" ∨ TrimWide a = ""
    · rw [save_invalid st q a hval]
      exact h
    · push_neg at hval
      rw [save_valid st q a hval.1 hval.2]
      simp

theorem runEvents_index_lt (es : List Event) : ∀ (st : AppState),
    st.currentCardIndex < st.cards.length →
    (runEvents st es).currentCardIndex < (runEvents st es).cards.length := by
  induction es with
  | nil =>
    intro st h
    exact h
  | cons e t ih =>
    intro st h
    rw [runEvents_cons]
    exact ih (applyEvent st e) (applyEvent_index_lt st e h)

theorem applyEvent_empty_hidden (st : AppState) (e : Event)
    (h : st.cards = [] → st.answerVisible = false) :
    (applyEvent st e).cards = [] → (applyEvent st e).answerVisible = false := by
  cases e with
  | reveal =>
    show (ShowAnswer st).cards = [] → (ShowAnswer st).answerVisible = false
    by_cases hc : st.cards = []
    · rw [showAnswer_noop st (Or.inl hc)]
      exact h
    · rw [showAnswer_cards st]
      intro hce
      exact absurd hce hc
  | rate r ts =>
    show (HandleRating st r ts).cards = [] → (HandleRating st r ts).answerVisible = false
    by_cases hv : st.answerVisible = false
    · rw [rate_hidden st r ts hv]
      exact h
    · intro hce
      rw [rate_cards st r ts] at hce
      exact absurd (h hce) hv
  | advance =>
    show (AdvanceToNextCard st).cards = [] → (AdvanceToNextCard st).answerVisible = false
    by_cases hc : st.cards = []
    · rw [advance_empty st hc]
      exact h
    · rw [advance_cards st]
      intro hce
      exact absurd hce hc
  | saveNewCard q a =>
    show (HandleSaveNewCard st q a).cards = [] → (HandleSaveNewCard st q a).answerVisible = false
    by_cases hval : TrimWide q = "" ∨ TrimWide a = ""
    · rw [save_invalid st q a hval]
      exact h
    · push_neg at hval
      rw [save_valid st q a hval.1 hval.2]
      simp

theorem runEvents_empty_hidden (es : List Event) : ∀ (st : AppState),
    (st.cards = [] → st.answerVisible = false) →
    ((runEvents st es).cards = [] → (runEvents st es).answerVisible = false) := by
  induction es with
  | nil =>
    intro st h
    exact h
  | cons e t ih =>
    intro st h
    rw [runEvents_cons]
    exact ih (applyEvent st e) (applyEvent_empty_hidden st e h)

/-! ### Deck-loader lemmas -/

theorem processTrimmed_cards (ps : ParseState) (t : String) :
    (processTrimmed ps t).cards = ps.cards ∨
    ((processTrimmed ps t).cards = ps.cards ++ [ps.cur] ∧ IsCardComplete ps.cur = true) := by
  unfold processTrimmed
  split
  · exact Or.inl rfl
  split
  · exact Or.inl rfl
  split
  · dsimp only
    split
    · rename_i hguard
      exact Or.inr ⟨rfl, ((Bool.and_eq_true _ _).mp hguard).2⟩
    · exact Or.inl rfl
  split
  · exact Or.inl rfl
  split
  · exact Or.inl rfl
  split
  · exact Or.inl rfl
  split
  · exact Or.inl rfl
  · exact Or.inl rfl

theorem processLine_complete (ps : ParseState) (line : String)
    (h : ∀ c ∈ ps.cards, IsCardComplete c = true) :
    ∀ c ∈ (processLine ps line).cards, IsCardComplete c = true := by
  intro c hc
  unfold processLine at hc
  rcases processTrimmed_cards ps (Trim line) with hcase | ⟨hcase, hcomp⟩
  · rw [hcase] at hc
    exact h c hc
  · rw [hcase] at hc
    rcases List.mem_append.mp hc with h1 | h1
    · exact h c h1
    · rw [List.mem_singleton.mp h1]
      exact hcomp

theorem foldl_processLine_complete (lines : List String) : ∀ (ps : ParseState),
    (∀ c ∈ ps.cards, IsCardComplete c = true) →
    ∀ c ∈ (lines.foldl processLine ps).cards, IsCardComplete c = true := by
  induction lines with
  | nil =>
    intro ps h
    exact h
  | cons l t ih =>
    intro ps h
    rw [List.foldl_cons]
    exact ih (processLine ps l) (processLine_complete ps l h)

theorem loadCardsFromYaml_complete (source : Option (List String)) :
    ∀ c ∈ LoadCardsFromYaml source, IsCardComplete c = true := by
  intro c hc
  unfold LoadCardsFromYaml at hc
  cases source with
  | none => simp at hc
  | some lines =>
    dsimp only at hc
    have hfold := foldl_processLine_complete lines ⟨[], defaultCard, false⟩
      (by intro c hc; simp at hc)
    split at hc
    · rename_i hguard
      rcases List.mem_append.mp hc with h1 | h1
      · exact hfold c h1
      · rw [List.mem_singleton.mp h1]
        exact ((Bool.and_eq_true _ _).mp hguard).2
    · exact hfold c hc

/-! ### Claim theorems -/

/-- C1: in any session state where the answer is hidden, `rate(r)` is a
complete no-op: no rating line is appended to the log and the whole session
state (deck, current index, visibility, panes, messages) is unchanged. -/
theorem rate_hidden_noop (st : AppState) (r : Rating) (ts : String)
    (h : st.answerVisible = false) : HandleRating st r ts = st :=
  rate_hidden st r ts h

/-- Witness for C1 at the freshly initialized built-in deck. -/
theorem rate_hidden_noop_witness :
    (initState LoadDefaultCards true).answerVisible = false ∧
    HandleRating (initState LoadDefaultCards true) Rating.Good "2024-01-01 10:00:00" =
      initState LoadDefaultCards true :=
  ⟨by decide, rate_hidden_noop (initState LoadDefaultCards true) Rating.Good
    "2024-01-01 10:00:00" (by decide)⟩

/-- C3: `reveal()` is a no-op when the deck is empty or the answer is already
visible, and it is idempotent: revealing twice equals revealing once, with no
duplicate side effects. -/
theorem showAnswer_idempotent (st : AppState) :
    (st.cards = [] ∨ st.answerVisible = true → ShowAnswer st = st) ∧
    ShowAnswer (ShowAnswer st) = ShowAnswer st := by
  constructor
  · exact showAnswer_noop st
  · by_cases h : st.cards = [] ∨ st.answerVisible = true
    · have h1 := showAnswer_noop st h
      rw [h1]
      exact h1
    · push_neg at h
      have hv : st.answerVisible = false := by
        cases hb : st.answerVisible
        · rfl
        · exact absurd hb h.2
      have h1 := showAnswer_reveal st h.1 hv
      rw [h1]
      apply showAnswer_noop
      right
      rfl

/-- Witness for C3 on the freshly initialized built-in deck. -/
theorem showAnswer_idempotent_witness :
    ShowAnswer (ShowAnswer (initState LoadDefaultCards true)) =
      ShowAnswer (initState LoadDefaultCards true) :=
  (showAnswer_idempotent (initState LoadDefaultCards true)).2

/-- C7: when the trimmed question or trimmed answer is empty, saving a new
card only shows the validation message: deck, current index and visibility
flag (and everything else in the session) are unchanged. -/
theorem saveNewCard_validation_atomic (st : AppState) (q a : String)
    (h : TrimWide q = "" ∨ TrimWide a = "") :
    (HandleSaveNewCard st q a).cards = st.cards ∧
    (HandleSaveNewCard st q a).currentCardIndex = st.currentCardIndex ∧
    (HandleSaveNewCard st q a).answerVisible = st.answerVisible ∧
    HandleSaveNewCard st q a =
      { st with messages := st.messages ++ [validationMessage] } := by
  rw [save_invalid st q a h]
  exact ⟨rfl, rfl, rfl, rfl⟩

/-- Witness for C7: an all-whitespace question is rejected atomically. -/
theorem saveNewCard_validation_atomic_witness :
    (TrimWide "   " = "" ∨ TrimWide "A" = "") ∧
    HandleSaveNewCard (initState LoadDefaultCards true) "   " "A" =
      { initState LoadDefaultCards true with
        messages := (initState LoadDefaultCards true).messages ++ [validationMessage] } :=
  ⟨Or.inl (by decide),
   (saveNewCard_validation_atomic (initState LoadDefaultCards true) "   " "A"
     (Or.inl (by decide))).2.2.2⟩

/-- C8: the generated id is `card-N` for the least positive `N` such that
`card-N` is not already an id in the deck; in particular it is unused (hence
unique in the deck), and the bounded search that computes it always finds it
(the C++ loop terminates). -/
theorem generateUniqueId_least (cards : List Card) :
    ∃ N, GenerateUniqueId cards = candidateId N ∧ 1 ≤ N ∧
      IdExists cards (candidateId N) = false ∧
      ∀ m, 1 ≤ m → m < N → IdExists cards (candidateId m) = true := by
  obtain ⟨k, hk1, hk2, hk3⟩ := exists_unused_candidate cards
  unfold GenerateUniqueId
  exact genIdFrom_spec cards (cards.length + 1) 1 ⟨k, hk1, by omega, hk3⟩

/-- C9: starting the session on a non-empty loaded deck at index 0, every
state reachable by reveal / rate / advance / new-card-save events keeps
`currentCardIndex` inside `[0, cards.length)`; advancing wraps the index
modulo the deck size, and a valid save sets it to the index of the appended
card (the old length) while appending exactly that card. -/
theorem index_range_invariant (deck : List Card) (b : Bool) (es : List Event)
    (h : deck ≠ []) :
    (runEvents (initState deck b) es).currentCardIndex <
      (runEvents (initState deck b) es).cards.length ∧
    (∀ st : AppState, st.cards ≠ [] →
      (AdvanceToNextCard st).currentCardIndex =
        (st.currentCardIndex + 1) % st.cards.length) ∧
    (∀ (st : AppState) (q a : String), TrimWide q ≠ "" → TrimWide a ≠ "" →
      (HandleSaveNewCard st q a).currentCardIndex = st.cards.length ∧
      (HandleSaveNewCard st q a).cards =
        st.cards ++ [⟨GenerateUniqueId st.cards, TrimWide q, TrimWide a⟩]) := by
  refine ⟨?_, ?_, ?_⟩
  · apply runEvents_index_lt
    show (initState deck b).currentCardIndex < (initState deck b).cards.length
    unfold initState
    rw [loadCurrentCard_spec _ (by simpa using h)]
    simpa using List.length_pos.mpr h
  · intro st hst
    rw [advance_spec st hst]
  · intro st q a hq ha
    rw [save_valid st q a hq ha]
    exact ⟨rfl, rfl⟩

/-- Witness for C9: two events on the built-in deck keep the index in range. -/
theorem index_range_invariant_witness :
    LoadDefaultCards ≠ [] ∧
    (runEvents (initState LoadDefaultCards true)
        [Event.reveal, Event.rate Rating.Good "ts1"]).currentCardIndex <
      (runEvents (initState LoadDefaultCards true)
        [Event.reveal, Event.rate Rating.Good "ts1"]).cards.length :=
  ⟨by decide,
   (index_range_invariant LoadDefaultCards true
     [Event.reveal, Event.rate Rating.Good "ts1"] (by decide)).1⟩

/-- C10: with an empty deck every operation is a no-op (reveal, advance, and
rate while hidden return the state unchanged, so the card lookup modulo the
deck size is never evaluated on an empty deck), and in every state reachable
from a hidden-on-empty state the visibility flag stays false whenever the
deck is empty. -/
theorem empty_deck_safety (st : AppState) (es : List Event) :
    (st.cards = [] → ShowAnswer st = st) ∧
    (st.cards = [] → AdvanceToNextCard st = st) ∧
    (∀ r ts, st.cards = [] → st.answerVisible = false → HandleRating st r ts = st) ∧
    ((st.cards = [] → st.answerVisible = false) →
      (runEvents st es).cards = [] → (runEvents st es).answerVisible = false) := by
  refine ⟨fun h => showAnswer_noop st (Or.inl h), fun h => advance_empty st h,
    fun r ts _ hv => rate_hidden st r ts hv,
    fun h => runEvents_empty_hidden es st h⟩

/-- Witness for C10 on the empty-deck initial state. -/
theorem empty_deck_safety_witness :
    ShowAnswer (initState [] true) = initState [] true ∧
    (runEvents (initState [] true) [Event.reveal, Event.rate Rating.Good "ts",
      Event.advance]).answerVisible = false := by
  have h := empty_deck_safety (initState [] true)
    [Event.reveal, Event.rate Rating.Good "ts", Event.advance]
  exact ⟨h.1 rfl, h.2.2.2 (fun _ => rfl) (by decide)⟩

/-- C2: from index 0 on a non-empty deck, running one full pass of
`deckSize` reveal-then-rate rounds returns the index to 0 and shows the
"deck completed" message exactly once more than before; and each single
advance wraps the index modulo the deck size, resets the state to Hidden,
and signals completion exactly when the new index is 0. -/
theorem deck_cycle_completes (st : AppState) (r : Nat → Rating) (ts : Nat → String)
    (h : st.cards ≠ []) (h0 : st.currentCardIndex = 0) (hv : st.answerVisible = false) :
    (runEvents st (reviewRounds st.cards.length r ts)).currentCardIndex = 0 ∧
    completedCount (runEvents st (reviewRounds st.cards.length r ts)) =
      completedCount st + 1 ∧
    (∀ st' : AppState, st'.cards ≠ [] →
      (AdvanceToNextCard st').currentCardIndex =
        (st'.currentCardIndex + 1) % st'.cards.length ∧
      (AdvanceToNextCard st').answerVisible = false ∧
      (AdvanceToNextCard st').messages = st'.messages ++
        (if (st'.currentCardIndex + 1) % st'.cards.length = 0 then [completionMessage]
         else [])) := by
  have hn : 0 < st.cards.length := List.length_pos.mpr h
  obtain ⟨hc, hvv, hi, hm⟩ := review_rounds_effect st h hv h0 r ts st.cards.length
  refine ⟨?_, ?_, ?_⟩
  · rw [hi, Nat.mod_self]
  · rw [hm, Nat.div_self hn]
  · intro st' h'
    rw [advance_spec st' h']
    exact ⟨rfl, rfl, rfl⟩

/-- Witness for C2: one full pass over the 3-card built-in deck. -/
theorem deck_cycle_completes_witness :
    (initState LoadDefaultCards true).cards ≠ [] ∧
    (runEvents (initState LoadDefaultCards true)
      (reviewRounds (initState LoadDefaultCards true).cards.length
        (fun _ => Rating.Good) (fun _ => "ts"))).currentCardIndex = 0 :=
  ⟨by decide,
   (deck_cycle_completes (initState LoadDefaultCards true)
     (fun _ => Rating.Good) (fun _ => "ts") (by decide) (by decide) (by decide)).1⟩

theorem currentCard_of_append (st : AppState) (l : List Card) (c : Card)
    (hc : st.cards = l ++ [c]) (hi : st.currentCardIndex = l.length) :
    currentCard st = c := by
  unfold currentCard
  rw [hc, hi]
  rw [Nat.mod_eq_of_lt (by simp)]
  rw [List.getD_eq_getElem?_getD, List.getElem?_concat_length]
  rfl

/-- C4: saving a new card whose question and answer are non-empty and
already trimmed appends it to the deck, makes it the current card with the
session reset to Hidden, and an immediately following `reveal()` shows
exactly the submitted answer. -/
theorem saveNewCard_roundTrip (st : AppState) (q a : String)
    (hq : TrimWide q = q) (hqne : q ≠ "") (ha : TrimWide a = a) (hane : a ≠ "") :
    (HandleSaveNewCard st q a).cards =
      st.cards ++ [⟨GenerateUniqueId st.cards, q, a⟩] ∧
    currentCard (HandleSaveNewCard st q a) = ⟨GenerateUniqueId st.cards, q, a⟩ ∧
    (HandleSaveNewCard st q a).currentCardIndex = st.cards.length ∧
    (HandleSaveNewCard st q a).answerVisible = false ∧
    (ShowAnswer (HandleSaveNewCard st q a)).bottomText = a ∧
    (ShowAnswer (HandleSaveNewCard st q a)).answerVisible = true := by
  have hq' : TrimWide q ≠ "" := by
    rw [hq]
    exact hqne
  have ha' : TrimWide a ≠ "" := by
    rw [ha]
    exact hane
  have hs := save_valid st q a hq' ha'
  rw [hq, ha] at hs
  rw [hs]
  refine ⟨rfl, currentCard_of_append _ st.cards _ rfl rfl, rfl, rfl, ?_, ?_⟩
  · rw [showAnswer_reveal _ (by simp) rfl]
    show (currentCard _).answer = a
    rw [currentCard_of_append _ st.cards _ rfl rfl]
  · rw [showAnswer_reveal _ (by simp) rfl]

/-- Witness for C4: authoring ("Q", "A") on the built-in deck and revealing. -/
theorem saveNewCard_roundTrip_witness :
    (ShowAnswer (HandleSaveNewCard (initState LoadDefaultCards true) "Q" "A")).bottomText
      = "A" :=
  (saveNewCard_roundTrip (initState LoadDefaultCards true) "Q" "A"
    (by decide) (by decide) (by decide) (by decide)).2.2.2.2.1

/-- C5: if the deck source is missing/unavailable (`none`) or parses to no
(complete) cards, `LoadCards` returns exactly the hardcoded 3-card built-in
deck (ids capital-france / math-basic-2-plus-2 / largest-planet, answers
Paris / 4 / Jupiter); the parser only ever yields complete cards; and the
returned deck is non-empty for every source. -/
theorem loadCards_fallback :
    (∀ source, LoadCardsFromYaml source = [] → LoadCards source = LoadDefaultCards) ∧
    LoadDefaultCards.map Card.id =
      ["capital-france", "math-basic-2-plus-2", "largest-planet"] ∧
    LoadDefaultCards.map Card.answer = ["Paris", "4", "Jupiter"] ∧
    LoadDefaultCards.length = 3 ∧
    (∀ source c, c ∈ LoadCardsFromYaml source → IsCardComplete c = true) ∧
    (∀ source, LoadCards source ≠ []) := by
  refine ⟨?_, rfl, rfl, rfl, ?_, ?_⟩
  · intro source hsrc
    unfold LoadCards
    rw [hsrc]
    rfl
  · intro source c hc
    exact loadCardsFromYaml_complete source c hc
  · intro source
    unfold LoadCards
    by_cases hsrc : LoadCardsFromYaml source = []
    · rw [hsrc]
      simp [LoadDefaultCards]
    · show ¬(if LoadCardsFromYaml source = [] then LoadDefaultCards
        else LoadCardsFromYaml source) = []
      rw [if_neg hsrc]
      exact hsrc

/-- Witness for C5: a missing file yields the built-in deck. -/
theorem loadCards_fallback_witness :
    LoadCards none = LoadDefaultCards :=
  loadCards_fallback.1 none rfl

/-- C6: each successful rating (Revealed state, log open, non-empty card id)
appends exactly one `<timestamp>|<cardId>|<ratingToken>` line to the log; and
the rating sequence [Good, Bad, Meh] over three distinct cards produces
exactly three lines, in that order, with the matching card ids. -/
theorem rating_log_append_order :
    (∀ (st : AppState) (r : Rating) (ts : String),
      st.answerVisible = true → st.cards ≠ [] → st.logOpen = true →
      (currentCard st).id ≠ "" →
      (HandleRating st r ts).logLines =
        st.logLines ++ [ts ++ "|" ++ (currentCard st).id ++ "|" ++ RatingToText r]) ∧
    (∀ (c1 c2 c3 : Card) (ts1 ts2 ts3 : String) (st : AppState),
      st.cards = [c1, c2, c3] → st.currentCardIndex = 0 → st.answerVisible = false →
      st.logOpen = true → c1.id ≠ "" → c2.id ≠ "" → c3.id ≠ "" →
      c1.id ≠ c2.id → c1.id ≠ c3.id → c2.id ≠ c3.id →
      (runEvents st [Event.reveal, Event.rate Rating.Good ts1,
                     Event.reveal, Event.rate Rating.Bad ts2,
                     Event.reveal, Event.rate Rating.Meh ts3]).logLines =
        st.logLines ++ [ts1 ++ "|" ++ c1.id ++ "|" ++ "good",
                        ts2 ++ "|" ++ c2.id ++ "|" ++ "bad",
                        ts3 ++ "|" ++ c3.id ++ "|" ++ "meh"]) := by
  constructor
  · intro st r ts hv hcne hlog hid
    rw [rate_spec st r ts hv hcne]
    show st.logLines ++ _ = _
    rw [if_neg (by simp [hlog, hid])]
  · intro c1 c2 c3 ts1 ts2 ts3 st hc h0 hv hlog h1 h2 h3 hd12 hd13 hd23
    obtain ⟨cards, idx, vis, lo, ll, tt, bt, ms⟩ := st
    simp only at hc h0 hv hlog
    subst hc h0 hv hlog
    simp [runEvents, applyEvent, HandleRating, ShowAnswer, AdvanceToNextCard,
      AppendRatingToLog, LoadCurrentCard, currentCard, RatingToText, h1, h2, h3]

/-- Witness for C6: the three built-in cards rated Good, Bad, Meh. -/
theorem rating_log_append_order_witness :
    (runEvents (initState LoadDefaultCards true)
      [Event.reveal, Event.rate Rating.Good "t1",
       Event.reveal, Event.rate Rating.Bad "t2",
       Event.reveal, Event.rate Rating.Meh "t3"]).logLines =
      (initState LoadDefaultCards true).logLines ++
        ["t1" ++ "|" ++ "capital-france" ++ "|" ++ "good",
         "t2" ++ "|" ++ "math-basic-2-plus-2" ++ "|" ++ "bad",
         "t3" ++ "|" ++ "largest-planet" ++ "|" ++ "meh"] :=
  rating_log_append_order.2
    ⟨"capital-france", "What is the capital of France?", "Paris"⟩
    ⟨"math-basic-2-plus-2", "What is 2 + 2?", "4"⟩
    ⟨"largest-planet", "Name the largest planet in our solar system.", "Jupiter"⟩
    "t1" "t2" "t3" (initState LoadDefaultCards true)
    rfl rfl rfl rfl (by decide) (by decide) (by decide)
    (by decide) (by decide) (by decide)
